import Mathlib

/-!
Shallow embedding of the go-sync bounded object pool (src/pool.go).

Items of the generic type `T` are represented by natural-number identities
(the factory produces a fresh identity on each invocation, mirroring pointer
identity of factory-produced objects).

External dependencies of pool.go are modelled from their stable, documented
behaviour:
* `golang.org/x/sync/semaphore.Weighted` (fields `size`, `cur`): `Acquire(ctx, 1)`
  fails returning `ctx.Err()` without taking a permit when the context is
  already done; otherwise it takes a permit when `cur < size` and blocks when
  the gate is saturated.  `Release(1)` decrements `cur` and panics with
  "semaphore: released more than held" when `cur` would become negative.
* `sync.Pool`, restricted to a single goroutine on a single P (the setting of
  every sequential trace here): the per-P state is a `private` slot plus a
  `shared` chain.  `Put` stores into the private slot when it is empty and
  otherwise pushes onto the head of the shared chain; `Get` serves the
  occupied private slot first (the oldest `Put` not yet retrieved), then pops
  the head of the shared chain (the most recent of the remaining puts), and
  only then calls the registered `New` function.  `Get` with no `New`
  registered yields nil and the `.(T)` type assertion panics.  Consequently a
  returned item is served back by the next `Get` only when the private slot
  was empty at the time of the `Put`.  (GC may additionally empty the cache;
  no claim here depends on that and it is not modelled.)
* `runtime.SetFinalizer` / garbage collection: each factory-produced item gets
  one finalizer decrementing the live counter; the runtime runs each finalizer
  at most once, at a nondeterministic later time.  The state carries the number
  of registered-but-not-yet-run finalizers (`pending`) and an explicit
  `reclaim` step runs one of them.

Machine-integer width: the `count` field is an `atomic.Int32` in the source;
`Add` wraps in two's complement.  The embedding keeps the counter as an `Int`
that is re-normalised into `[-2^31, 2^31)` by `wrap32` at every update,
which is exactly int32 wrap-around arithmetic.
-/

namespace GoSync

/-- Configuration options of `NewPool` (pool.go: `WithBootstrapItems`,
`WithSize`).  Go `int` arguments are embedded as `Int`. -/
inductive PoolOpt where
  | withBootstrapItems (c : Int)
  | withSize (l : Int)
deriving DecidableEq

/-- The state of a `Pool[T]` (pool.go `type Pool`), together with the state of
its semaphore and the bookkeeping of registered finalizers.
`bounded` is `semMax != nil`; `held` is the semaphore's `cur` (permits held);
`priv` and `shared` are the `sync.Pool` per-P private slot and shared chain
(head = most recently pushed); `count` is the atomic int32 live counter, kept
wrapped into `[-2^31, 2^31)`; `pending` counts registered finalizers that
have not yet run; `nextId` is a ghost counter of factory invocations, doubling
as the source of fresh item identities; `factorySet` is whether
`syncPool.New` has been registered. -/
structure PoolState where
  initial : Int
  max : Int
  bounded : Bool
  held : Nat
  priv : Option Nat
  shared : List Nat
  count : Int
  pending : Nat
  nextId : Nat
  factorySet : Bool
deriving DecidableEq

/-- The zero value `&Pool[T]{}` allocated at the start of `NewPool`. -/
def emptyPool : PoolState :=
  { initial := 0, max := 0, bounded := false, held := 0, priv := none,
    shared := [], count := 0, pending := 0, nextId := 0, factorySet := false }

/-- Applying one option (the closures returned by `WithBootstrapItems` and
`WithSize`). -/
def applyOpt (p : PoolState) : PoolOpt → PoolState
  | .withBootstrapItems c => { p with initial := c }
  | .withSize l => { p with max := l }

/-- The option-application loop of `NewPool` (pool.go:32-34). -/
def applyOpts (opts : List PoolOpt) : PoolState :=
  opts.foldl applyOpt emptyPool

/-- The size-promotion step of `NewPool` (pool.go:35-37):
`if pool.max < pool.initial { pool.max = pool.initial }`. -/
def promote (p : PoolState) : PoolState :=
  if p.max < p.initial then { p with max := p.initial } else p

/-- The gate-creation step of `NewPool` (pool.go:38-40):
`if pool.max > 0 { pool.semMax = semaphore.NewWeighted(int64(pool.max)) }`. -/
def gate (p : PoolState) : PoolState :=
  if 0 < p.max then { p with bounded := true } else p

/-- `NewPool` (pool.go:30-43): apply the options in order, promote `max` up to
`initial` when `max < initial`, and create the admission semaphore when
`max > 0`. -/
def newPool (opts : List PoolOpt) : PoolState :=
  gate (promote (applyOpts opts))

/-- Result of a pool operation in a sequential trace: normal return, a call
that blocks forever (no other goroutine will release a permit), or a panic. -/
inductive Outcome (α : Type) where
  | ok (a : α)
  | blocked
  | panicked
deriving DecidableEq

/-- Two's-complement int32 wrap-around: re-normalise an integer into
`[-2^31, 2^31)`.  The literals are `2^31` and `2^32`. -/
def wrap32 (z : Int) : Int := (z + 2147483648) % 4294967296 - 2147483648

/-- The wrapped factory installed as `syncPool.New` by `SetFactory`
(pool.go:86-94): invoke the user factory (producing a fresh item identity),
increment `count` with int32 arithmetic, and register a finalizer that will
later decrement it. -/
def wrappedNew (p : PoolState) : Nat × PoolState :=
  (p.nextId,
   { p with count := wrap32 (p.count + 1), pending := p.pending + 1,
            nextId := p.nextId + 1 })

/-- The idle items currently cached, in the order `Get` would serve them:
the private slot first, then the shared chain from its head. -/
def cached (p : PoolState) : List Nat := p.priv.toList ++ p.shared

/-- `p.syncPool.Put(item)` (pool.go:127) on the single P of the trace: fill
the private slot when it is empty, otherwise push onto the head of the
shared chain. -/
def syncPoolPut (x : Nat) (p : PoolState) : PoolState :=
  match p.priv with
  | none => { p with priv := some x }
  | some _ => { p with shared := x :: p.shared }

/-- `p.syncPool.Get().(T)` (pool.go:122) on the single P of the trace: serve
the occupied private slot first, then the head of the shared chain, otherwise
call the registered `New` function; with no factory registered, `Get` yields
nil and the type assertion panics. -/
def syncPoolGet (p : PoolState) : Outcome (Nat × PoolState) :=
  match p.priv with
  | some x => .ok (x, { p with priv := none })
  | none =>
    match p.shared with
    | y :: rest => .ok (y, { p with shared := rest })
    | [] => if p.factorySet then .ok (wrappedNew p) else .panicked

/-- `Borrow` (pool.go:118-123).  When bounded, the code calls
`p.semMax.Acquire(ctx, 1)` and ignores its error: with a done context the
semaphore fails without taking a permit, and control falls through to
`syncPool.Get` regardless; with a live context the call takes a permit when
one is free and otherwise blocks. -/
def PoolState.borrow (ctxDone : Bool) (p : PoolState) :
    Outcome (Nat × PoolState) :=
  if p.bounded then
    if ctxDone then
      syncPoolGet p
    else if (p.held : Int) < p.max then
      syncPoolGet { p with held := p.held + 1 }
    else
      .blocked
  else
    syncPoolGet p

/-- The release step of `ReturnItem` (pool.go:128-130):
`if p.semMax != nil { p.semMax.Release(1) }`, where
`semaphore.Weighted.Release` panics (result `none`) when more is released
than held. -/
def semRelease (p : PoolState) : Option PoolState :=
  if p.bounded then
    match p.held with
    | 0 => none
    | k + 1 => some { p with held := k }
  else
    some p

/-- `ReturnItem` (pool.go:126-131): put the item into the cache, then release
one permit when bounded. -/
def PoolState.returnItem (x : Nat) (p : PoolState) : Option PoolState :=
  semRelease (syncPoolPut x p)

/-- `Count` (pool.go:135-137): load the atomic live counter. -/
def PoolState.Count (p : PoolState) : Int := p.count

/-- The bootstrap borrow loop of `SetFactory` (pool.go:101-103), accumulating
the borrowed items in acquisition order. -/
def borrowLoop (ctxDone : Bool) :
    Nat → PoolState → List Nat → Outcome (List Nat × PoolState)
  | 0, p, acc => .ok (acc, p)
  | n + 1, p, acc =>
    match p.borrow ctxDone with
    | .ok (x, p') => borrowLoop ctxDone n p' (acc ++ [x])
    | .blocked => .blocked
    | .panicked => .panicked

/-- Returning a list of items one after the other; `SetFactory` calls this on
the reversed acquisition list (pool.go:105-107, the loop from `len-1` down
to `0`). -/
def returnLoop : List Nat → PoolState → Option PoolState
  | [], p => some p
  | x :: rest, p =>
    match p.returnItem x with
    | some p' => returnLoop rest p'
    | none => none

/-- The bootstrap block of `SetFactory` (pool.go:96-109): when `initial > 0`,
borrow `initial` items, return them in reverse order of acquisition, and
reset `initial` to 0. -/
def bootstrap (ctxDone : Bool) (p : PoolState) : Outcome PoolState :=
  if 0 < p.initial then
    match borrowLoop ctxDone p.initial.toNat p [] with
    | .ok (items, p1) =>
      match returnLoop items.reverse p1 with
      | some p2 => .ok { p2 with initial := 0 }
      | none => .panicked
    | .blocked => .blocked
    | .panicked => .panicked
  else
    .ok p

/-- `SetFactory` (pool.go:85-110): register the wrapped factory as
`syncPool.New`, then run the one-shot bootstrap block.  During the bootstrap
the cache is drained before the factory is consulted, exactly as in every
other `Borrow`. -/
def setFactory (ctxDone : Bool) (p : PoolState) : Outcome PoolState :=
  bootstrap ctxDone { p with factorySet := true }

/-- A configuration of a sequential trace: the pool plus the list of items the
callers have successfully borrowed and not yet returned (the outstanding
items). -/
structure Config where
  pool : PoolState
  heldItems : List Nat
deriving DecidableEq

/-- One caller-visible operation of a trace. `reclaim` is the runtime running
one registered finalizer (a no-op when none is pending). -/
inductive Op where
  | setFactory (ctxDone : Bool)
  | borrow (ctxDone : Bool)
  | ret (x : Nat)
  | reclaim
deriving DecidableEq

/-- Small-step semantics of one operation on a configuration. -/
def step (c : Config) : Op → Outcome Config
  | .setFactory d =>
    match GoSync.setFactory d c.pool with
    | .ok p' => .ok ⟨p', c.heldItems⟩
    | .blocked => .blocked
    | .panicked => .panicked
  | .borrow d =>
    match c.pool.borrow d with
    | .ok (x, p') => .ok ⟨p', c.heldItems ++ [x]⟩
    | .blocked => .blocked
    | .panicked => .panicked
  | .ret x =>
    match c.pool.returnItem x with
    | some p' => .ok ⟨p', c.heldItems.erase x⟩
    | none => .panicked
  | .reclaim =>
    match c.pool.pending with
    | 0 => .ok c
    | k + 1 =>
      .ok ⟨{ c.pool with count := wrap32 (c.pool.count - 1), pending := k },
           c.heldItems⟩

/-- Execution of a sequence of operations; a blocked or panicking call ends
the trace. -/
def exec (c : Config) : List Op → Outcome Config
  | [] => .ok c
  | o :: rest =>
    match step c o with
    | .ok c' => exec c' rest
    | .blocked => .blocked
    | .panicked => .panicked

/-- The configuration right after `NewPool`. -/
def initConfig (opts : List PoolOpt) : Config := ⟨newPool opts, []⟩

/-- A configuration is reachable when some option list and operation sequence
produces it without blocking or panicking. -/
def Reachable (c : Config) : Prop :=
  ∃ opts ops, exec (initConfig opts) ops = .ok c

end GoSync

namespace GoSync

lemma wrap32_add_left (a b : Int) : wrap32 (wrap32 a + b) = wrap32 (a + b) := by
  unfold wrap32
  omega

lemma wrap32_idem (a : Int) : wrap32 (wrap32 a) = wrap32 a := by
  have h := wrap32_add_left a 0
  simpa using h

lemma wrap32_of_range (z : Int) (h1 : -2147483648 ≤ z)
    (h2 : z < 2147483648) : wrap32 z = z := by
  unfold wrap32
  omega

/-- Bookkeeping invariant tying the live counter to the registered-but-unrun
finalizers: the counter always equals the number of pending finalizers
reduced by int32 wrap-around (each creation registers one finalizer and adds
one; each finalizer run removes one and subtracts one). -/
def Inv (p : PoolState) : Prop := p.count = wrap32 (p.pending : Int)

lemma inv_wrappedNew (p : PoolState) (h : Inv p) : Inv (wrappedNew p).2 := by
  simp only [Inv, wrappedNew] at *
  rw [h, wrap32_add_left]
  push_cast
  ring_nf

lemma inv_syncPoolPut (x : Nat) (p : PoolState) (h : Inv p) :
    Inv (syncPoolPut x p) := by
  unfold syncPoolPut
  split
  · exact h
  · exact h

lemma inv_syncPoolGet (p q : PoolState) (x : Nat)
    (hg : syncPoolGet p = .ok (x, q)) (h : Inv p) : Inv q := by
  unfold syncPoolGet at hg
  split at hg
  · cases hg
    exact h
  · split at hg
    · cases hg
      exact h
    · split at hg
      · cases hg
        exact inv_wrappedNew p h
      · cases hg

lemma inv_borrow (d : Bool) (p q : PoolState) (x : Nat)
    (hb : p.borrow d = .ok (x, q)) (h : Inv p) : Inv q := by
  unfold PoolState.borrow at hb
  split at hb
  · split at hb
    · exact inv_syncPoolGet p q x hb h
    · split at hb
      · exact inv_syncPoolGet _ q x hb h
      · cases hb
  · exact inv_syncPoolGet p q x hb h

lemma inv_semRelease (p q : PoolState)
    (hr : semRelease p = some q) (h : Inv p) : Inv q := by
  unfold semRelease at hr
  split at hr
  · split at hr
    · cases hr
    · cases hr
      exact h
  · cases hr
    exact h

lemma inv_returnItem (x : Nat) (p q : PoolState)
    (hr : p.returnItem x = some q) (h : Inv p) : Inv q := by
  unfold PoolState.returnItem at hr
  exact inv_semRelease _ q hr (inv_syncPoolPut x p h)

lemma inv_borrowLoop (d : Bool) :
    ∀ (n : Nat) (p : PoolState) (acc items : List Nat) (q : PoolState),
      borrowLoop d n p acc = .ok (items, q) → Inv p → Inv q := by
  intro n
  induction n with
  | zero =>
    intro p acc items q hl h
    cases hl
    exact h
  | succ m ih =>
    intro p acc items q hl h
    unfold borrowLoop at hl
    split at hl
    · rename_i x p' hx
      exact ih p' (acc ++ [x]) items q hl (inv_borrow d p p' x hx h)
    · cases hl
    · cases hl

lemma inv_returnLoop :
    ∀ (xs : List Nat) (p q : PoolState),
      returnLoop xs p = some q → Inv p → Inv q := by
  intro xs
  induction xs with
  | nil =>
    intro p q hl h
    cases hl
    exact h
  | cons x rest ih =>
    intro p q hl h
    unfold returnLoop at hl
    split at hl
    · rename_i p' hp'
      exact ih p' q hl (inv_returnItem x p p' hp' h)
    · cases hl

lemma inv_bootstrap (d : Bool) (p q : PoolState)
    (hs : bootstrap d p = .ok q) (h : Inv p) : Inv q := by
  unfold bootstrap at hs
  split at hs
  · split at hs
    · rename_i items p1 hloop
      split at hs
      · rename_i p2 hret
        cases hs
        exact inv_returnLoop items.reverse p1 p2 hret
          (inv_borrowLoop d p.initial.toNat p [] items p1 hloop h)
      · cases hs
    · cases hs
    · cases hs
  · cases hs
    exact h

lemma inv_setFactory (d : Bool) (p q : PoolState)
    (hs : setFactory d p = .ok q) (h : Inv p) : Inv q := by
  unfold setFactory at hs
  exact inv_bootstrap d _ q hs h

lemma inv_step (c c' : Config) (o : Op)
    (hs : step c o = .ok c') (h : Inv c.pool) : Inv c'.pool := by
  cases o with
  | setFactory d =>
    simp only [step] at hs
    split at hs
    · rename_i p' hp'
      cases hs
      exact inv_setFactory d c.pool p' hp' h
    · cases hs
    · cases hs
  | borrow d =>
    simp only [step] at hs
    split at hs
    · rename_i x p' hp'
      cases hs
      exact inv_borrow d c.pool p' x hp' h
    · cases hs
    · cases hs
  | ret x =>
    simp only [step] at hs
    split at hs
    · rename_i p' hp'
      cases hs
      exact inv_returnItem x c.pool p' hp' h
    · cases hs
  | reclaim =>
    simp only [step] at hs
    split at hs
    · cases hs
      exact h
    · rename_i k hk
      cases hs
      simp only [Inv] at *
      rw [hk] at h
      rw [h]
      push_cast
      rw [show wrap32 ((k:Int) + 1) - 1 = wrap32 ((k:Int) + 1) + (-1) by ring]
      rw [wrap32_add_left]
      norm_num

lemma inv_exec :
    ∀ (ops : List Op) (c c' : Config),
      exec c ops = .ok c' → Inv c.pool → Inv c'.pool := by
  intro ops
  induction ops with
  | nil =>
    intro c c' he h
    cases he
    exact h
  | cons o rest ih =>
    intro c c' he h
    unfold exec at he
    split at he
    · rename_i c1 hc1
      exact ih c1 c' he (inv_step c c1 o hc1 h)
    · cases he
    · cases he

lemma applyOpt_fields (p : PoolState) (o : PoolOpt) :
    (applyOpt p o).bounded = p.bounded ∧ (applyOpt p o).held = p.held ∧
    (applyOpt p o).priv = p.priv ∧ (applyOpt p o).shared = p.shared ∧
    (applyOpt p o).count = p.count ∧ (applyOpt p o).pending = p.pending ∧
    (applyOpt p o).nextId = p.nextId ∧
    (applyOpt p o).factorySet = p.factorySet := by
  cases o <;> simp [applyOpt]

lemma foldl_applyOpt_fields :
    ∀ (opts : List PoolOpt) (p : PoolState),
      (opts.foldl applyOpt p).bounded = p.bounded ∧
      (opts.foldl applyOpt p).held = p.held ∧
      (opts.foldl applyOpt p).priv = p.priv ∧
      (opts.foldl applyOpt p).shared = p.shared ∧
      (opts.foldl applyOpt p).count = p.count ∧
      (opts.foldl applyOpt p).pending = p.pending ∧
      (opts.foldl applyOpt p).nextId = p.nextId ∧
      (opts.foldl applyOpt p).factorySet = p.factorySet := by
  intro opts
  induction opts with
  | nil => intro p; simp
  | cons o rest ih =>
    intro p
    obtain ⟨a1, b1, c1, d1, e1, f1, g1, j1⟩ := applyOpt_fields p o
    obtain ⟨a2, b2, c2, d2, e2, f2, g2, j2⟩ := ih (applyOpt p o)
    simp only [List.foldl_cons]
    exact ⟨a2.trans a1, b2.trans b1, c2.trans c1, d2.trans d1,
      e2.trans e1, f2.trans f1, g2.trans g1, j2.trans j1⟩

lemma applyOpts_fields (opts : List PoolOpt) :
    (applyOpts opts).bounded = false ∧ (applyOpts opts).held = 0 ∧
    (applyOpts opts).priv = none ∧ (applyOpts opts).shared = [] ∧
    (applyOpts opts).count = 0 ∧ (applyOpts opts).pending = 0 ∧
    (applyOpts opts).nextId = 0 ∧ (applyOpts opts).factorySet = false := by
  have h := foldl_applyOpt_fields opts emptyPool
  simpa [applyOpts, emptyPool] using h

lemma promote_fields (p : PoolState) :
    (promote p).bounded = p.bounded ∧ (promote p).held = p.held ∧
    (promote p).priv = p.priv ∧ (promote p).shared = p.shared ∧
    (promote p).count = p.count ∧ (promote p).pending = p.pending ∧
    (promote p).nextId = p.nextId ∧
    (promote p).factorySet = p.factorySet ∧
    (promote p).initial = p.initial ∧
    (promote p).initial ≤ (promote p).max := by
  unfold promote
  split
  · simp
  · simp
    omega

lemma gate_fields (p : PoolState) :
    (gate p).held = p.held ∧ (gate p).priv = p.priv ∧
    (gate p).shared = p.shared ∧ (gate p).count = p.count ∧
    (gate p).pending = p.pending ∧ (gate p).nextId = p.nextId ∧
    (gate p).factorySet = p.factorySet ∧ (gate p).initial = p.initial ∧
    (gate p).max = p.max ∧
    (gate p).bounded = (if 0 < p.max then true else p.bounded) := by
  unfold gate
  split <;> simp_all

/-- Shape of a freshly constructed pool: empty cache, no permits held, zero
counters, factory unregistered, `initial ≤ max` after size promotion, and the
admission gate present exactly when the final `max` is positive. -/
lemma newPool_shape (opts : List PoolOpt) :
    (newPool opts).held = 0 ∧ (newPool opts).priv = none ∧
    (newPool opts).shared = [] ∧ (newPool opts).count = 0 ∧
    (newPool opts).pending = 0 ∧ (newPool opts).nextId = 0 ∧
    (newPool opts).factorySet = false ∧
    (newPool opts).initial ≤ (newPool opts).max ∧
    (newPool opts).bounded = decide (0 < (newPool opts).max) := by
  have h0 := applyOpts_fields opts
  have h1 := promote_fields (applyOpts opts)
  have h2 := gate_fields (promote (applyOpts opts))
  unfold newPool
  obtain ⟨a0, b0, c0, d0, e0, f0, g0, j0⟩ := h0
  obtain ⟨a1, b1, c1, d1, e1, f1, g1, j1, k1, l1⟩ := h1
  obtain ⟨b2, c2, d2, e2, f2, g2, j2, k2, l2, m2⟩ := h2
  refine ⟨?_, ?_, ?_, ?_, ?_, ?_, ?_, ?_, ?_⟩ <;>
    simp_all

end GoSync

namespace GoSync

/-- Effect of the bootstrap borrow loop on a bounded pool with an empty cache
and a registered factory: each of the `n` iterations finds both cache slots
empty, invokes the wrapped factory, and holds one more admission permit; the
counter advances by `n` with int32 arithmetic. -/
lemma borrowLoop_fresh :
    ∀ (n : Nat) (p : PoolState) (acc : List Nat),
      p.priv = none → p.shared = [] → p.factorySet = true →
      p.bounded = true → wrap32 p.count = p.count →
      (p.held : Int) + n ≤ p.max →
      borrowLoop false n p acc =
        .ok (acc ++ List.range' p.nextId n,
             { p with held := p.held + n, count := wrap32 (p.count + n),
                      pending := p.pending + n, nextId := p.nextId + n }) := by
  intro n
  induction n with
  | zero =>
    intro p acc hpriv hsh hfac hb hwrap hle
    simp [borrowLoop, hwrap]
  | succ m ih =>
    intro p acc hpriv hsh hfac hb hwrap hle
    obtain ⟨i, mx, bd, h, pv, sh, cnt, pnd, nid, fs⟩ := p
    simp only at hpriv hsh hfac hb hwrap hle
    subst hpriv hsh hfac hb
    have hlt : (h : Int) < mx := by push_cast at hle ⊢; omega
    have hbor :
        PoolState.borrow false
          ⟨i, mx, true, h, none, [], cnt, pnd, nid, true⟩ =
          .ok (nid, ⟨i, mx, true, h + 1, none, [], wrap32 (cnt + 1),
                pnd + 1, nid + 1, true⟩) := by
      simp [PoolState.borrow, hlt, syncPoolGet, wrappedNew]
    rw [borrowLoop]
    simp only [hbor]
    simp only [ih ⟨i, mx, true, h + 1, none, [], wrap32 (cnt + 1),
        pnd + 1, nid + 1, true⟩ (acc ++ [nid]) rfl rfl rfl rfl
        (wrap32_idem (cnt + 1)) (by push_cast at hle ⊢; omega)]
    simp only [Outcome.ok.injEq, Prod.mk.injEq, PoolState.mk.injEq,
      List.append_assoc, List.range'_succ, List.singleton_append,
      true_and, and_true, wrap32]
    omega

/-- Effect of the borrow loop when the cache holds exactly the items the loop
will borrow: the items are served from the cache in `Get` order (private slot
first, then the shared chain) and no factory call happens. -/
lemma borrowLoop_drain :
    ∀ (l : List Nat) (p : PoolState) (acc : List Nat),
      cached p = l → p.bounded = true →
      (p.held : Int) + l.length ≤ p.max →
      borrowLoop false l.length p acc =
        .ok (acc ++ l,
             { p with priv := none, shared := [], held := p.held + l.length })
        := by
  intro l
  induction l with
  | nil =>
    intro p acc hc hb hle
    obtain ⟨i, mx, bd, h, pv, sh, cnt, pnd, nid, fs⟩ := p
    simp only [cached] at hc
    cases pv with
    | none =>
      simp only [Option.toList_none, List.nil_append] at hc
      subst hc
      simp [borrowLoop]
    | some v =>
      simp at hc
  | cons y rest ih =>
    intro p acc hc hb hle
    obtain ⟨i, mx, bd, h, pv, sh, cnt, pnd, nid, fs⟩ := p
    simp only at hb
    subst hb
    have hlt : (h : Int) < mx := by
      simp only [List.length_cons] at hle
      push_cast at hle ⊢
      omega
    cases pv with
    | some v =>
      simp only [cached, Option.toList_some, List.singleton_append,
        List.cons.injEq] at hc
      obtain ⟨rfl, rfl⟩ := hc
      have hbor :
          PoolState.borrow false
            ⟨i, mx, true, h, some v, sh, cnt, pnd, nid, fs⟩ =
            .ok (v, ⟨i, mx, true, h + 1, none, sh, cnt, pnd, nid, fs⟩) := by
        simp [PoolState.borrow, hlt, syncPoolGet]
      rw [List.length_cons, borrowLoop]
      simp only [hbor]
      simp only [ih ⟨i, mx, true, h + 1, none, sh, cnt, pnd, nid, fs⟩
          (acc ++ [v]) rfl rfl
          (by simp only [List.length_cons] at hle; push_cast at hle ⊢; omega)]
      simp only [Outcome.ok.injEq, Prod.mk.injEq, PoolState.mk.injEq,
        List.append_assoc, List.singleton_append, true_and, and_true]
      omega
    | none =>
      simp only [cached, Option.toList_none, List.nil_append] at hc
      subst hc
      have hbor :
          PoolState.borrow false
            ⟨i, mx, true, h, none, y :: rest, cnt, pnd, nid, fs⟩ =
            .ok (y, ⟨i, mx, true, h + 1, none, rest, cnt, pnd, nid, fs⟩) := by
        simp [PoolState.borrow, hlt, syncPoolGet]
      rw [List.length_cons, borrowLoop]
      simp only [hbor]
      simp only [ih ⟨i, mx, true, h + 1, none, rest, cnt, pnd, nid, fs⟩
          (acc ++ [y]) rfl rfl
          (by simp only [List.length_cons] at hle; push_cast at hle ⊢; omega)]
      simp only [Outcome.ok.injEq, Prod.mk.injEq, PoolState.mk.injEq,
        List.append_assoc, List.singleton_append, true_and, and_true]
      omega

/-- Effect of returning items while the private slot is occupied: every item
goes onto the shared chain and one permit is released per item. -/
lemma returnLoop_priv_occupied :
    ∀ (xs : List Nat) (p : PoolState) (v : Nat),
      p.bounded = true → xs.length ≤ p.held → p.priv = some v →
      returnLoop xs p =
        some { p with shared := xs.reverse ++ p.shared,
                      held := p.held - xs.length } := by
  intro xs
  induction xs with
  | nil =>
    intro p v hb hlen hpriv
    simp [returnLoop]
  | cons x rest ih =>
    intro p v hb hlen hpriv
    obtain ⟨i, mx, bd, h, pv, sh, cnt, pnd, nid, fs⟩ := p
    simp only at hb hlen hpriv
    subst hb hpriv
    simp only [List.length_cons] at hlen
    obtain ⟨k, rfl⟩ : ∃ k, h = k + 1 := ⟨h - 1, by omega⟩
    have hret :
        PoolState.returnItem x
          ⟨i, mx, true, k + 1, some v, sh, cnt, pnd, nid, fs⟩ =
          some ⟨i, mx, true, k, some v, x :: sh, cnt, pnd, nid, fs⟩ := by
      simp [PoolState.returnItem, syncPoolPut, semRelease]
    rw [returnLoop]
    simp only [hret]
    simp only [ih ⟨i, mx, true, k, some v, x :: sh, cnt, pnd, nid, fs⟩ v
        rfl (show rest.length ≤ k by omega) rfl]
    simp only [Option.some.injEq, PoolState.mk.injEq, List.reverse_cons,
      List.append_assoc, List.singleton_append, List.length_cons,
      true_and, and_true]
    omega

/-- Effect of returning a nonempty list of items starting from an empty
private slot: the first item fills the private slot, the remaining items go
onto the shared chain, and one permit is released per item. -/
lemma returnLoop_from_empty (x : Nat) (rest : List Nat) (p : PoolState)
    (hb : p.bounded = true) (hlen : rest.length + 1 ≤ p.held)
    (hpriv : p.priv = none) :
    returnLoop (x :: rest) p =
      some { p with priv := some x, shared := rest.reverse ++ p.shared,
                    held := p.held - (rest.length + 1) } := by
  obtain ⟨i, mx, bd, h, pv, sh, cnt, pnd, nid, fs⟩ := p
  simp only at hb hlen hpriv
  subst hb hpriv
  obtain ⟨k, rfl⟩ : ∃ k, h = k + 1 := ⟨h - 1, by omega⟩
  have hret :
      PoolState.returnItem x
        ⟨i, mx, true, k + 1, none, sh, cnt, pnd, nid, fs⟩ =
        some ⟨i, mx, true, k, some x, sh, cnt, pnd, nid, fs⟩ := by
    simp [PoolState.returnItem, syncPoolPut, semRelease]
  rw [returnLoop]
  simp only [hret]
  simp only [returnLoop_priv_occupied rest
      ⟨i, mx, true, k, some x, sh, cnt, pnd, nid, fs⟩ x rfl
      (show rest.length ≤ k by omega) rfl]
  simp only [Option.some.injEq, PoolState.mk.injEq, true_and, and_true]
  omega

/-- The complete effect of `SetFactory` on a freshly constructed pool with a
positive bootstrap count: `initial` items are created by the factory (each
consuming one admission permit), then returned in reverse order of
acquisition (restoring every permit); the last-acquired item ends in the
private slot, the others on the shared chain in identity order, and `initial`
is reset to zero. -/
lemma setFactory_bootstrap_spec (p : PoolState)
    (hpriv : p.priv = none) (hshared : p.shared = []) (hheld : p.held = 0)
    (hwrap : wrap32 p.count = p.count) (hinit : 0 < p.initial)
    (hmax : p.initial ≤ p.max) (hb : p.bounded = true) :
    setFactory false p =
      .ok { p with factorySet := true, initial := 0,
                   priv := some (p.nextId + (p.initial.toNat - 1)),
                   shared := List.range' p.nextId (p.initial.toNat - 1),
                   count := wrap32 (p.count + p.initial),
                   pending := p.pending + p.initial.toNat,
                   nextId := p.nextId + p.initial.toNat } := by
  obtain ⟨i, mx, bd, h, pv, sh, cnt, pnd, nid, fs⟩ := p
  simp only at hpriv hshared hheld hwrap hinit hmax hb
  subst hpriv hshared hheld hb
  have hcast : ((i.toNat : Int)) = i := Int.toNat_of_nonneg (le_of_lt hinit)
  obtain ⟨m, hm⟩ : ∃ m, i.toNat = m + 1 := ⟨i.toNat - 1, by omega⟩
  unfold setFactory bootstrap
  simp only [if_pos hinit]
  simp only [borrowLoop_fresh i.toNat ⟨i, mx, true, 0, none, [], cnt, pnd,
      nid, true⟩ [] rfl rfl rfl rfl hwrap (by push_cast; omega)]
  simp only [List.nil_append]
  rw [hm]
  rw [List.range'_concat]
  simp only [one_mul, List.reverse_append, List.reverse_cons,
    List.reverse_nil, List.nil_append, List.singleton_append]
  simp only [returnLoop_from_empty (nid + m) (List.range' nid m).reverse
      ⟨i, mx, true, 0 + (m + 1), none, [], wrap32 (cnt + (((m:Nat) + 1 : Nat) : Int)),
        pnd + (m + 1), nid + (m + 1), true⟩ rfl
      (by simp) rfl]
  simp only [Outcome.ok.injEq, PoolState.mk.injEq, List.reverse_reverse,
    List.append_nil, List.length_reverse, List.length_range',
    Nat.add_sub_cancel, true_and, and_true, wrap32]
  rw [hm] at hcast
  push_cast at hcast
  omega

end GoSync

namespace GoSync

/-- A `SetFactory` call on a pool whose bootstrap counter is not positive and
whose factory flag is already set changes nothing (the one-shot bootstrap does
not re-run). -/
lemma setFactory_no_bootstrap (q : PoolState)
    (h1 : q.initial ≤ 0) (h2 : q.factorySet = true) :
    setFactory false q = .ok q := by
  obtain ⟨i, mx, bd, hh, pv, sh, cnt, pnd, nid, fs⟩ := q
  simp only at h1 h2
  subst h2
  unfold setFactory bootstrap
  rw [if_neg (show ¬ (0:Int) < i by omega)]

/-- Effect of a run of `k` live-context `Borrow` calls on an unbounded pool
with an empty cache and a registered factory: `k` wrapped-factory calls, each
advancing the int32 counter, the pending-finalizer count and the ghost
invocation counter by one, with all created items outstanding. -/
lemma exec_replicate_borrow :
    ∀ (k : Nat) (c : Config),
      c.pool.bounded = false → c.pool.priv = none → c.pool.shared = [] →
      c.pool.factorySet = true → wrap32 c.pool.count = c.pool.count →
      exec c (List.replicate k (.borrow false)) =
        .ok ⟨{ c.pool with
                 count := wrap32 (c.pool.count + k),
                 pending := c.pool.pending + k,
                 nextId := c.pool.nextId + k },
             c.heldItems ++ List.range' c.pool.nextId k⟩ := by
  intro k
  induction k with
  | zero =>
    intro c hb hpriv hsh hfac hwrap
    simp [exec, hwrap]
  | succ m ih =>
    intro c hb hpriv hsh hfac hwrap
    obtain ⟨⟨i, mx, bd, h, pv, sh, cnt, pnd, nid, fs⟩, items⟩ := c
    simp only at hb hpriv hsh hfac hwrap
    subst hb hpriv hsh hfac
    have hstep :
        step ⟨⟨i, mx, false, h, none, [], cnt, pnd, nid, true⟩, items⟩
          (.borrow false) =
          .ok ⟨⟨i, mx, false, h, none, [], wrap32 (cnt + 1), pnd + 1,
                nid + 1, true⟩, items ++ [nid]⟩ := by
      simp [step, PoolState.borrow, syncPoolGet, wrappedNew]
    rw [List.replicate_succ, exec]
    simp only [hstep]
    simp only [ih ⟨⟨i, mx, false, h, none, [], wrap32 (cnt + 1), pnd + 1,
        nid + 1, true⟩, items ++ [nid]⟩ rfl rfl rfl rfl
        (wrap32_idem (cnt + 1))]
    simp only [Outcome.ok.injEq, Config.mk.injEq, PoolState.mk.injEq,
      List.range'_succ, List.append_assoc, List.singleton_append,
      true_and, and_true, wrap32]
    omega

/-- C3: for every `NewPool` call whose applied options leave `maxSize`
below `bootstrapCount`, the constructor raises `maxSize` to `bootstrapCount`;
in particular `size = 2, bootstrap = 5` yields an effective maximum of 5. -/
theorem newPool_size_promotion :
    (∀ opts : List PoolOpt,
        (applyOpts opts).max < (applyOpts opts).initial →
        (newPool opts).max = (applyOpts opts).initial)
    ∧ (newPool [.withSize 2, .withBootstrapItems 5]).max = 5 := by
  constructor
  · intro opts h
    unfold newPool
    rw [(gate_fields (promote (applyOpts opts))).2.2.2.2.2.2.2.2.1]
    unfold promote
    rw [if_pos h]
  · decide

theorem newPool_size_promotion_witness :
    (applyOpts [PoolOpt.withSize 2, PoolOpt.withBootstrapItems 5]).max <
      (applyOpts [PoolOpt.withSize 2, PoolOpt.withBootstrapItems 5]).initial ∧
    (newPool [PoolOpt.withSize 2, PoolOpt.withBootstrapItems 5]).max =
      (applyOpts [PoolOpt.withSize 2, PoolOpt.withBootstrapItems 5]).initial :=
  ⟨by decide, newPool_size_promotion.1 _ (by decide)⟩

/-- C4: on a pool with a positive bootstrap count, `SetFactory` performs
`bootstrapCount` borrows — each a factory invocation (`nextId`, the ghost
invocation counter, advances by `bootstrapCount`) consuming one admission
slot — followed by the same number of returns in reverse order of
acquisition, restoring all admission slots (`held = 0`), populating the idle
cache with `bootstrapCount` items, and resetting `bootstrapCount` to 0, so
that a second `SetFactory` call performs no bootstrap. -/
theorem setFactory_bootstrap_effect (opts : List PoolOpt)
    (h : 0 < (newPool opts).initial) :
    ∃ q, setFactory false (newPool opts) = .ok q
      ∧ q.nextId = (newPool opts).nextId + (newPool opts).initial.toNat
      ∧ q.held = 0
      ∧ (cached q).length = (newPool opts).initial.toNat
      ∧ q.initial = 0
      ∧ q.factorySet = true
      ∧ setFactory false q = .ok q := by
  obtain ⟨hheld, hpriv, hsh, hcnt, hpnd, hnid, hfac, hle, hbd⟩ :=
    newPool_shape opts
  have hb : (newPool opts).bounded = true := by
    rw [hbd]
    simp only [decide_eq_true_eq]
    omega
  have hwrap : wrap32 (newPool opts).count = (newPool opts).count := by
    rw [hcnt]
    decide
  refine ⟨_, setFactory_bootstrap_spec (newPool opts) hpriv hsh hheld hwrap
    h hle hb, rfl, ?_, ?_, rfl, rfl, ?_⟩
  · exact hheld
  · show ((some ((newPool opts).nextId +
        ((newPool opts).initial.toNat - 1))).toList ++
        List.range' (newPool opts).nextId
          ((newPool opts).initial.toNat - 1)).length =
      (newPool opts).initial.toNat
    simp
    omega
  · exact setFactory_no_bootstrap _ (le_refl 0) rfl

theorem setFactory_bootstrap_effect_witness :
    0 < (newPool [PoolOpt.withBootstrapItems 3]).initial ∧
    ∃ q, setFactory false (newPool [PoolOpt.withBootstrapItems 3]) = .ok q
      ∧ q.nextId = (newPool [PoolOpt.withBootstrapItems 3]).nextId +
          (newPool [PoolOpt.withBootstrapItems 3]).initial.toNat
      ∧ q.held = 0
      ∧ (cached q).length =
          (newPool [PoolOpt.withBootstrapItems 3]).initial.toNat
      ∧ q.initial = 0
      ∧ q.factorySet = true
      ∧ setFactory false q = .ok q :=
  ⟨by decide, setFactory_bootstrap_effect _ (by decide)⟩

/-- C5: on a pool constructed with bootstrap count 5, `Count()` returns 5
right after `SetFactory` returns, before any explicit `Borrow` or
`ReturnItem` by the caller (5 int32 increments from 0 stay far below the
wrap-around point). -/
theorem setFactory_count_after_bootstrap_five (opts : List PoolOpt)
    (h : (newPool opts).initial = 5) :
    ∃ q, setFactory false (newPool opts) = .ok q ∧ q.Count = 5 := by
  obtain ⟨hheld, hpriv, hsh, hcnt, hpnd, hnid, hfac, hle, hbd⟩ :=
    newPool_shape opts
  have h5 : (0:Int) < (newPool opts).initial := by rw [h]; norm_num
  have hb : (newPool opts).bounded = true := by
    rw [hbd]
    simp only [decide_eq_true_eq]
    omega
  have hwrap : wrap32 (newPool opts).count = (newPool opts).count := by
    rw [hcnt]
    decide
  refine ⟨_, setFactory_bootstrap_spec (newPool opts) hpriv hsh hheld hwrap
    h5 hle hb, ?_⟩
  show wrap32 ((newPool opts).count + (newPool opts).initial) = 5
  rw [hcnt, h]
  decide

theorem setFactory_count_after_bootstrap_five_witness :
    (newPool [PoolOpt.withSize 10, PoolOpt.withBootstrapItems 5]).initial = 5 ∧
    ∃ q, setFactory false
        (newPool [PoolOpt.withSize 10, PoolOpt.withBootstrapItems 5]) = .ok q
      ∧ q.Count = 5 :=
  ⟨by decide, setFactory_count_after_bootstrap_five _ (by decide)⟩

end GoSync

namespace GoSync

/-- C6 counterexample: returning more often than borrowing does not silently
inflate capacity — on a bounded pool the trace `Borrow` then `ReturnItem`
twice panics at the second `ReturnItem` (the semaphore release check),
refuting the claim that no error and no panic occurs. -/
theorem over_release_panics_trace :
    exec (initConfig [.withSize 2])
      [.setFactory false, .borrow false, .ret 0, .ret 0] = .panicked := by
  decide

/-- C6 amended: on a bounded pool, a `ReturnItem` call made while no
admission permit is held — which is what the first `ReturnItem` in excess of
the successful `Borrow` calls does — panics via the semaphore's
released-more-than-held check; capacity is never silently inflated. -/
theorem over_release_panics (p : PoolState) (x : Nat)
    (hb : p.bounded = true) (hh : p.held = 0) :
    p.returnItem x = none := by
  obtain ⟨i, mx, bd, h, pv, sh, cnt, pnd, nid, fs⟩ := p
  simp only at hb hh
  subst hb hh
  cases pv <;> simp [PoolState.returnItem, syncPoolPut, semRelease]

theorem over_release_panics_witness :
    (⟨0, 2, true, 0, none, [], 0, 0, 0, true⟩ : PoolState).bounded = true ∧
    (⟨0, 2, true, 0, none, [], 0, 0, 0, true⟩ : PoolState).held = 0 ∧
    PoolState.returnItem 9
      (⟨0, 2, true, 0, none, [], 0, 0, 0, true⟩ : PoolState) = none :=
  ⟨rfl, rfl, over_release_panics _ 9 rfl rfl⟩

/-- C7 counterexample: an item returned and immediately re-borrowed, with no
intervening borrows and no other borrower, is not always the same instance.
On a `maxSize = 5` pool, borrow items 0 and 1, return 0 (it fills the
private slot), return 1 (the private slot is occupied, so 1 goes to the
shared chain) and borrow again: `sync.Pool` serves the private slot first,
so the caller gets item 0 — not the just-returned item 1. -/
theorem return_then_borrow_different_item :
    ∃ c q r,
      exec (initConfig [.withSize 5])
        [.setFactory false, .borrow false, .borrow false, .ret 0] = .ok c
      ∧ PoolState.returnItem 1 c.pool = some q
      ∧ q.borrow false = .ok (0, r)
      ∧ (0 : Nat) ≠ 1 :=
  ⟨⟨⟨0, 5, true, 1, some 0, [], 2, 2, 2, true⟩, [1]⟩,
   ⟨0, 5, true, 0, some 0, [1], 2, 2, 2, true⟩,
   ⟨0, 5, true, 1, none, [1], 2, 2, 2, true⟩,
   by decide, by decide, by decide, by decide⟩

/-- C7 amended: an item returned and then immediately re-borrowed, with no
other borrower intervening, is served back as the same instance provided the
cache's private slot is empty at the return (in particular whenever the
cache is entirely empty); the other hypothesis is the caller-contract state
of the scenario — on a bounded pool the returning caller still holds its
permit (`0 < held ≤ max`). -/
theorem return_then_borrow_same_item (p : PoolState) (x : Nat)
    (hpriv : p.priv = none)
    (h : p.bounded = true → 0 < p.held ∧ (p.held : Int) ≤ p.max) :
    ∃ q r, p.returnItem x = some q ∧ q.borrow false = .ok (x, r) := by
  obtain ⟨i, mx, bd, hh, pv, sh, cnt, pnd, nid, fs⟩ := p
  simp only at hpriv h
  subst hpriv
  cases bd with
  | false =>
    refine ⟨⟨i, mx, false, hh, some x, sh, cnt, pnd, nid, fs⟩,
            ⟨i, mx, false, hh, none, sh, cnt, pnd, nid, fs⟩, ?_, ?_⟩
    · simp [PoolState.returnItem, syncPoolPut, semRelease]
    · simp [PoolState.borrow, syncPoolGet]
  | true =>
    obtain ⟨hpos, hle⟩ := h rfl
    obtain ⟨k, rfl⟩ : ∃ k, hh = k + 1 := ⟨hh - 1, by omega⟩
    have hlt : (k : Int) < mx := by push_cast at hle ⊢; omega
    refine ⟨⟨i, mx, true, k, some x, sh, cnt, pnd, nid, fs⟩,
            ⟨i, mx, true, k + 1, none, sh, cnt, pnd, nid, fs⟩, ?_, ?_⟩
    · simp [PoolState.returnItem, syncPoolPut, semRelease]
    · simp [PoolState.borrow, hlt, syncPoolGet]

theorem return_then_borrow_same_item_witness :
    (⟨0, 1, true, 1, none, [], 1, 1, 1, true⟩ : PoolState).priv = none ∧
    ((⟨0, 1, true, 1, none, [], 1, 1, 1, true⟩ : PoolState).bounded = true →
      0 < (⟨0, 1, true, 1, none, [], 1, 1, 1, true⟩ : PoolState).held ∧
      ((⟨0, 1, true, 1, none, [], 1, 1, 1, true⟩ : PoolState).held : Int) ≤
        (⟨0, 1, true, 1, none, [], 1, 1, 1, true⟩ : PoolState).max) ∧
    ∃ q r, PoolState.returnItem 42 (⟨0, 1, true, 1, none, [], 1, 1, 1, true⟩ :
        PoolState) = some q ∧ q.borrow false = .ok (42, r) :=
  ⟨rfl, by decide, return_then_borrow_same_item _ 42 rfl (by decide)⟩

/-- C8 counterexample: `Count()` can return a negative value.  With no size
option (unbounded pool) and a registered factory, a trace of `2^31`
live-context `Borrow` calls with nothing reclaimed performs `2^31` int32
increments from 0, so the counter wraps and `Count()` returns `-2^31`. -/
theorem count_wraps_negative :
    ∃ c : Config,
      exec (initConfig [])
        (Op.setFactory false :: List.replicate (2 ^ 31) (.borrow false)) =
        .ok c
      ∧ c.pool.Count < 0 := by
  have hstep : step (initConfig []) (.setFactory false) =
      .ok ⟨⟨0, 0, false, 0, none, [], 0, 0, 0, true⟩, []⟩ := by decide
  have hrep := exec_replicate_borrow (2 ^ 31)
      ⟨⟨0, 0, false, 0, none, [], 0, 0, 0, true⟩, []⟩ rfl rfl rfl rfl
      (by decide)
  refine ⟨⟨⟨0, 0, false, 0, none, [],
      wrap32 (0 + ((2 ^ 31 : Nat) : Int)), 0 + 2 ^ 31, 0 + 2 ^ 31, true⟩,
      [] ++ List.range' 0 (2 ^ 31)⟩, ?_, ?_⟩
  · rw [exec]
    simp only [hstep]
    exact hrep
  · show wrap32 ((0:Int) + ((2 ^ 31 : Nat) : Int)) < 0
    norm_num [wrap32]

/-- C8 amended: `Count()` is never negative in any reachable configuration
with fewer than `2^31` created-but-unreclaimed items (below the int32
wrap-around point), and a successful invocation of the wrapped factory does
not lower `Count()` as long as the counter sits below the int32 maximum;
asynchronous finalizer decrements arrive later as separate `reclaim`
steps. -/
theorem count_nonneg_and_factory_monotone :
    (∀ c : Config, Reachable c → c.pool.pending < 2 ^ 31 → 0 ≤ c.pool.Count)
    ∧ ∀ p : PoolState, -(2 ^ 31) ≤ p.count → p.count < 2 ^ 31 - 1 →
        p.Count ≤ ((wrappedNew p).2).Count := by
  constructor
  · intro c hc hpend
    obtain ⟨opts, ops, hexec⟩ := hc
    have hinit : Inv (initConfig opts).pool := by
      obtain ⟨hheld, hpriv, hsh, hcnt, hpnd, hnid, hfac, hle, hbd⟩ :=
        newPool_shape opts
      show (newPool opts).count = wrap32 ((newPool opts).pending : Int)
      rw [hcnt, hpnd]
      decide
    have hinv : Inv c.pool := inv_exec ops (initConfig opts) c hexec hinit
    have hlit : (2:Nat) ^ 31 = 2147483648 := by norm_num
    rw [hlit] at hpend
    show (0:Int) ≤ c.pool.count
    rw [hinv, wrap32_of_range _ (by omega) (by omega)]
    omega
  · intro p h1 h2
    have e1 : -((2:Int) ^ 31) = -2147483648 := by norm_num
    have e2 : (2:Int) ^ 31 - 1 = 2147483647 := by norm_num
    rw [e1] at h1
    rw [e2] at h2
    show p.count ≤ wrap32 (p.count + 1)
    rw [wrap32_of_range _ (by omega) (by omega)]
    omega

theorem count_nonneg_and_factory_monotone_witness :
    (Reachable (initConfig []) ∧ (initConfig []).pool.pending < 2 ^ 31 ∧
      0 ≤ (initConfig []).pool.Count) ∧
    (-((2:Int) ^ 31) ≤ emptyPool.count ∧ emptyPool.count < 2 ^ 31 - 1 ∧
      emptyPool.Count ≤ ((wrappedNew emptyPool).2).Count) :=
  ⟨⟨⟨[], [], rfl⟩, by decide,
    count_nonneg_and_factory_monotone.1 _ ⟨[], [], rfl⟩ (by decide)⟩,
   ⟨by norm_num [emptyPool], by norm_num [emptyPool],
    count_nonneg_and_factory_monotone.2 _ (by norm_num [emptyPool])
      (by norm_num [emptyPool])⟩⟩

/-- C9: `ReturnItem` leaves the live counter unchanged — `Count()` reads the
same immediately before and immediately after any completed `ReturnItem`
call. -/
theorem returnItem_count_frame (p : PoolState) (x : Nat) (q : PoolState)
    (h : p.returnItem x = some q) : q.Count = p.Count := by
  unfold PoolState.returnItem at h
  have hput : (syncPoolPut x p).count = p.count := by
    unfold syncPoolPut
    split
    · rfl
    · rfl
  have hrel : ∀ (r s : PoolState), semRelease r = some s →
      s.count = r.count := by
    intro r s hr
    unfold semRelease at hr
    split at hr
    · split at hr
      · cases hr
      · cases hr
        rfl
    · cases hr
      rfl
  show q.count = p.count
  rw [hrel (syncPoolPut x p) q h, hput]

theorem returnItem_count_frame_witness :
    PoolState.returnItem 7 emptyPool =
      some { emptyPool with priv := some 7 } ∧
    PoolState.Count { emptyPool with priv := some 7 } =
      PoolState.Count emptyPool :=
  ⟨rfl, returnItem_count_frame emptyPool 7 _ rfl⟩

/-- C1 failing trace: on a pool of `maxSize = 1`, a successful `Borrow`
followed by a `Borrow` whose context is already cancelled leaves two
outstanding items — `Borrow` ignores the semaphore's `Acquire` error and
serves an item anyway, so the outstanding count exceeds `maxSize`,
contradicting the claimed bound (and the code's own documentation that
`Borrow` blocks at the size limit). -/
theorem cancelled_borrow_exceeds_max :
    ∃ c : Config,
      exec (initConfig [.withSize 1])
        [.setFactory false, .borrow false, .borrow true] = .ok c
      ∧ c.pool.bounded = true
      ∧ c.pool.max < (c.heldItems.length : Int) :=
  ⟨⟨⟨0, 1, true, 1, none, [], 2, 2, 2, true⟩, [0, 1]⟩,
   by decide, rfl, by decide⟩

/-- C2 failing behaviour: with the gate of a `maxSize = 1` pool saturated
(`held = max`, no permit available) and an already-cancelled context,
`Borrow` does not fail — it consumes no permit (`held` unchanged) but still
returns an item, because the error of `semMax.Acquire` is discarded and the
function's signature carries no error at all. -/
theorem cancelled_borrow_still_yields_item :
    ∃ (c : Config) (x : Nat) (r : PoolState),
      exec (initConfig [.withSize 1]) [.setFactory false, .borrow false] =
        .ok c
      ∧ (c.pool.held : Int) = c.pool.max
      ∧ c.pool.borrow true = .ok (x, r)
      ∧ r.held = c.pool.held :=
  ⟨⟨⟨0, 1, true, 1, none, [], 1, 1, 1, true⟩, [0]⟩, 1,
    ⟨0, 1, true, 1, none, [], 2, 2, 2, true⟩,
    by decide, by decide, by decide, rfl⟩

/-- C10: constructing with only a bootstrap count `b > 0` (no size option, so
the requested `maxSize` stays 0, nominally unbounded) produces a bounded
pool: size promotion raises `max` to `b`, the admission gate is created with
`b` permits, and after the bootstrap a caller that borrows all `b` items
finds the next `Borrow` blocked. -/
theorem bootstrap_only_pool_bounded (b : Int) (hb : 0 < b) :
    (newPool [.withBootstrapItems b]).max = b
    ∧ (newPool [.withBootstrapItems b]).bounded = true
    ∧ ∃ q r items,
        setFactory false (newPool [.withBootstrapItems b]) = .ok q
        ∧ borrowLoop false b.toNat q [] = .ok (items, r)
        ∧ r.borrow false = .blocked := by
  have hpool : newPool [.withBootstrapItems b] =
      ⟨b, b, true, 0, none, [], 0, 0, 0, false⟩ := by
    simp [newPool, applyOpts, applyOpt, emptyPool, promote, gate, hb]
  have hsf := setFactory_bootstrap_spec
    ⟨b, b, true, 0, none, [], 0, 0, 0, false⟩ rfl rfl rfl
    (show wrap32 (0:Int) = (0:Int) by decide) hb (le_refl b) rfl
  have hlen : (cached ⟨0, b, true, 0, some (0 + (b.toNat - 1)),
      List.range' 0 (b.toNat - 1), wrap32 (0 + b), 0 + b.toNat,
      0 + b.toNat, true⟩).length = b.toNat := by
    simp [cached]
    omega
  have hdrain := borrowLoop_drain
    (cached ⟨0, b, true, 0, some (0 + (b.toNat - 1)),
      List.range' 0 (b.toNat - 1), wrap32 (0 + b), 0 + b.toNat,
      0 + b.toNat, true⟩)
    ⟨0, b, true, 0, some (0 + (b.toNat - 1)), List.range' 0 (b.toNat - 1),
      wrap32 (0 + b), 0 + b.toNat, 0 + b.toNat, true⟩ [] rfl rfl
    (by rw [hlen]; push_cast; omega)
  rw [hlen] at hdrain
  refine ⟨by rw [hpool], by rw [hpool],
    ⟨0, b, true, 0, some (0 + (b.toNat - 1)), List.range' 0 (b.toNat - 1),
      wrap32 (0 + b), 0 + b.toNat, 0 + b.toNat, true⟩,
    ⟨0, b, true, 0 + b.toNat, none, [], wrap32 (0 + b), 0 + b.toNat,
      0 + b.toNat, true⟩,
    cached ⟨0, b, true, 0, some (0 + (b.toNat - 1)),
      List.range' 0 (b.toNat - 1), wrap32 (0 + b), 0 + b.toNat,
      0 + b.toNat, true⟩, ?_, ?_, ?_⟩
  · rw [hpool]
    exact hsf
  · simp only [List.nil_append] at hdrain
    exact hdrain
  · have hfull : ¬ (((0 + b.toNat : Nat) : Int) < b) := by push_cast; omega
    simp [PoolState.borrow, hfull]

theorem bootstrap_only_pool_bounded_witness :
    (0:Int) < 2 ∧
    ((newPool [.withBootstrapItems 2]).max = 2
    ∧ (newPool [.withBootstrapItems 2]).bounded = true
    ∧ ∃ q r items,
        setFactory false (newPool [.withBootstrapItems 2]) = .ok q
        ∧ borrowLoop false (2:Int).toNat q [] = .ok (items, r)
        ∧ r.borrow false = .blocked) :=
  ⟨by decide, bootstrap_only_pool_bounded 2 (by decide)⟩

end GoSync
